import Mathlib

set_option maxRecDepth 20000

/-!
Formal model of the Kabaddi text-to-SQL backend (`src/backend/main.py`).

The pure text transformations (`clean_sql_query`, URL extraction) are embedded
as executable functions on `List Char`, translated operation by operation from
the Python regular expressions in the source (including the scan order,
alternation order and laziness/greediness of each quantifier).  The request
pipeline `KabaddiSystem.answer` is embedded with its external collaborators
(the two language-model calls of the parallel `assign` step, the SQL executor
and the rephraser) supplied as an explicit environment, together with a call
log recording how the collaborators were used.

Character classes are modelled on the ASCII range: Python's `\s` (and
`str.strip`) is modelled by the six ASCII whitespace characters, and
`re.IGNORECASE` by ASCII lower-casing, which is exact for all characters
occurring in the patterns of the source.
-/

/-- ASCII restriction of Python's regex class `\s` (and of `str.strip`). -/
def pyWs (c : Char) : Bool :=
  c == ' ' || c == '\t' || c == '\n' || c == '\r' || c == '\x0b' || c == '\x0c'

/-- Backtick character, written via its code point. -/
def tick : Char := Char.ofNat 96

/-- Case-insensitive literal match at the head of a text: `p` is a lowercase
pattern, and each pattern character must equal the lower-cased text character.
This models matching a literal under `re.IGNORECASE`. -/
def ciHead : List Char → List Char → Bool
  | [], _ => true
  | _ :: _, [] => false
  | p :: ps, c :: cs => (c.toLower == p) && ciHead ps cs

/-- Lowercase pattern letters of the literal `SELECT`. -/
def selectChars : List Char := ['s', 'e', 'l', 'e', 'c', 't']

/-- Lowercase pattern letters of the literal `SQL`. -/
def sqlChars : List Char := ['s', 'q', 'l']

/-- Lowercase pattern letters of the literal `Query`. -/
def queryChars : List Char := ['q', 'u', 'e', 'r', 'y']

/-- Lowercase pattern letters of the literal `SQLQuery`. -/
def sqlqueryChars : List Char := ['s', 'q', 'l', 'q', 'u', 'e', 'r', 'y']

/-- Lowercase pattern letters of the literal `MySQL`. -/
def mysqlChars : List Char := ['m', 'y', 's', 'q', 'l']

/-- Lowercase pattern letters of the literal `PostgreSQL`. -/
def postgresqlChars : List Char := ['p', 'o', 's', 't', 'g', 'r', 'e', 's', 'q', 'l']

/-!
Stage 1 of `clean_sql_query`:
`re.sub(r"```(?:sql|SQL|SQLQuery|mysql|postgresql)?\s*(.*?)\s*```", r"\1", text, flags=re.DOTALL)`.

At a match position the regex engine commits to the first alternation branch
of the (case-sensitive) language tag whose literal matches and after which a
closing fence still occurs; the greedy `\s*` then absorbs the maximal
whitespace run, the lazy group stops as early as possible before the first
closing fence, and the second greedy `\s*` gives the group back its trailing
whitespace run.  `re.sub` scans left to right and resumes after each match.
-/

/-- Literal three-backtick fence. -/
def fenceTicks : List Char := [tick, tick, tick]

/-- Whether a closing fence ```` ``` ```` occurs anywhere in the text. -/
def hasTicks : List Char → Bool
  | [] => false
  | c :: cs => fenceTicks.isPrefixOf (c :: cs) || hasTicks cs

/-- Split at the first occurrence of ```` ``` ````: returns the text before it
and the text after it. -/
def splitTicks : List Char → Option (List Char × List Char)
  | [] => none
  | c :: cs =>
    if fenceTicks.isPrefixOf (c :: cs) then some ([], cs.drop 2)
    else (splitTicks cs).map (fun p => (c :: p.1, p.2))

/-- The fence language tags, in the source's alternation order
(`sql|SQL|SQLQuery|mysql|postgresql`, then the empty tag for `(?:...)?`).
Tag matching is case-sensitive in the source pattern. -/
def fenceTags : List (List Char) :=
  [['s', 'q', 'l'], ['S', 'Q', 'L'], ['S', 'Q', 'L', 'Q', 'u', 'e', 'r', 'y'],
   ['m', 'y', 's', 'q', 'l'], ['p', 'o', 's', 't', 'g', 'r', 'e', 's', 'q', 'l'], []]

/-- Choose the first tag alternative that matches literally and after which a
closing fence still occurs (otherwise the regex engine backtracks to the next
alternative); returns the text after the tag. -/
def pickTag : List (List Char) → List Char → Option (List Char)
  | [], _ => none
  | tg :: tgs, r1 =>
    if tg.isPrefixOf r1 && hasTicks (r1.drop tg.length) then some (r1.drop tg.length)
    else pickTag tgs r1

/-- Remove the maximal trailing whitespace run. -/
def dropTrailingWs (l : List Char) : List Char :=
  (l.reverse.dropWhile pyWs).reverse

/-- Try to match the fenced-block pattern at the start of `r`; on success
return the captured group (the replacement text) and the rest of the input
after the whole match. -/
def fenceMatchAt (r : List Char) : Option (List Char × List Char) :=
  if fenceTicks.isPrefixOf r then
    match pickTag fenceTags (r.drop 3) with
    | some r2 =>
      match splitTicks (r2.dropWhile pyWs) with
      | some pq => some (dropTrailingWs pq.1, pq.2)
      | none => none
    | none => none
  else none

/-- Left-to-right scan of `re.sub` for the fenced-block pattern: each match is
replaced by its captured group and scanning resumes after the match.  The fuel
argument bounds the number of scan steps; every step consumes at least one
input character, so `r.length` steps always suffice. -/
def subFencesAux : Nat → List Char → List Char
  | 0, r => r
  | fuel + 1, r =>
    match fenceMatchAt r with
    | some gr => gr.1 ++ subFencesAux fuel gr.2
    | none =>
      match r with
      | [] => []
      | c :: cs => c :: subFencesAux fuel cs

/-- Stage 1 of `clean_sql_query`: strip fenced code blocks, keeping only the
fenced content. -/
def subFences (l : List Char) : List Char := subFencesAux l.length l

/-!
Stage 2 of `clean_sql_query`:
`re.sub(r"^(?:SQL\s*Query|SQLQuery|MySQL|PostgreSQL|SQL)\s*:\s*", "", text, flags=re.IGNORECASE)`.

Anchored at the start of the string (no `re.MULTILINE`), so at most one
replacement happens; the alternatives are tried in the source's order, and a
branch only commits if the following `\s*:\s*` also matches.
-/

/-- Match the trailing `\s*:\s*` of the label pattern: optional whitespace, a
colon, then optional whitespace; returns the rest. -/
def labelColon (r : List Char) : Option (List Char) :=
  match r.dropWhile pyWs with
  | ':' :: r2 => some (r2.dropWhile pyWs)
  | _ => none

/-- First label alternative `SQL\s*Query` (case-insensitive). -/
def labelAlt1 (t : List Char) : Option (List Char) :=
  if ciHead sqlChars t then
    let r := (t.drop 3).dropWhile pyWs
    if ciHead queryChars r then some (r.drop 5) else none
  else none

/-- Second label alternative `SQLQuery` (case-insensitive). -/
def labelAlt2 (t : List Char) : Option (List Char) :=
  if ciHead sqlqueryChars t then some (t.drop 8) else none

/-- Third label alternative `MySQL` (case-insensitive). -/
def labelAlt3 (t : List Char) : Option (List Char) :=
  if ciHead mysqlChars t then some (t.drop 5) else none

/-- Fourth label alternative `PostgreSQL` (case-insensitive). -/
def labelAlt4 (t : List Char) : Option (List Char) :=
  if ciHead postgresqlChars t then some (t.drop 10) else none

/-- Fifth label alternative `SQL` (case-insensitive). -/
def labelAlt5 (t : List Char) : Option (List Char) :=
  if ciHead sqlChars t then some (t.drop 3) else none

/-- Stage 2 of `clean_sql_query`: strip a leading SQL label, trying the
alternatives in the source's order; if no alternative (followed by
`\s*:\s*`) matches at the very start, the text is unchanged. -/
def stripLabel (t : List Char) : List Char :=
  match (labelAlt1 t).bind labelColon with
  | some r => r
  | none =>
  match (labelAlt2 t).bind labelColon with
  | some r => r
  | none =>
  match (labelAlt3 t).bind labelColon with
  | some r => r
  | none =>
  match (labelAlt4 t).bind labelColon with
  | some r => r
  | none =>
  match (labelAlt5 t).bind labelColon with
  | some r => r
  | none => t

/-!
Stage 3 of `clean_sql_query`:
`re.search(r"(SELECT.*?;)", text, flags=re.IGNORECASE | re.DOTALL)`.

The search returns the match at the leftmost position where `SELECT` matches
case-insensitively and a `;` occurs later; the lazy `.*?` stops at the first
such `;` (with `re.DOTALL`, across newlines).
-/

/-- Take the characters up to and including the first `;`, if any. -/
def takeThroughSemi : List Char → Option (List Char)
  | [] => none
  | c :: cs => if c = ';' then some [';'] else (takeThroughSemi cs).map (c :: ·)

/-- Leftmost, lazily terminated match of `(SELECT.*?;)` (case-insensitive,
dot matches newline). -/
def findSelect : List Char → Option (List Char)
  | [] => none
  | c :: cs =>
    if ciHead selectChars (c :: cs) then
      match takeThroughSemi ((c :: cs).drop 6) with
      | some tail => some ((c :: cs).take 6 ++ tail)
      | none => findSelect cs
    else findSelect cs

/-!
Stage 4 of `clean_sql_query`: `re.sub(r'\s+', ' ', text.strip())`.
-/

/-- Python's `str.strip()`: remove leading and trailing whitespace. -/
def trimWs (l : List Char) : List Char := dropTrailingWs (l.dropWhile pyWs)

/-- Replace each maximal whitespace run by a single space; the flag records
whether the previous character was part of a whitespace run. -/
def collapseAux : Bool → List Char → List Char
  | _, [] => []
  | inWs, c :: cs =>
    if pyWs c then
      if inWs then collapseAux true cs else ' ' :: collapseAux true cs
    else c :: collapseAux false cs

/-- Replace each maximal whitespace run by a single space. -/
def collapseWs (l : List Char) : List Char := collapseAux false l

/-- Stage 4 of `clean_sql_query`: strip, then collapse whitespace runs. -/
def normWs (l : List Char) : List Char := collapseWs (trimWs l)

/-- The `clean_sql_query` utility of `src/backend/main.py`: strip fenced code
blocks, strip a leading SQL label, isolate the first lazily terminated
`SELECT ... ;` match if one exists, then strip and collapse whitespace. -/
def clean_sql_query (text : String) : String :=
  let t1 := subFences text.data
  let t2 := stripLabel t1
  let t3 := (findSelect t2).getD t2
  ⟨normWs t3⟩

/-!
URL extraction of the success path:
`re.findall(r"https?://[^\s|]+", answer)` — absolute http/https links, each
greedy run terminated at whitespace or a pipe character, collected
left-to-right without overlap.
-/

/-- Characters allowed in the matched URL tail: the class `[^\s|]`. -/
def urlChar (c : Char) : Bool := !pyWs c && c != '|'

/-- Literal `http` head of the URL pattern (case-sensitive). -/
def httpChars : List Char := ['h', 't', 't', 'p']

/-- Try to match `https?://[^\s|]+` at the start of `t`; on success return the
match and the rest of the input after it.  The greedy `s?` prefers the `https`
scheme and falls back to `http` exactly as the backtracking engine does. -/
def urlMatchAt (t : List Char) : Option (List Char × List Char) :=
  if httpChars.isPrefixOf t then
    match t.drop 4 with
    | 's' :: ':' :: '/' :: '/' :: rest =>
      if (rest.takeWhile urlChar).isEmpty then none
      else some (['h', 't', 't', 'p', 's', ':', '/', '/'] ++ rest.takeWhile urlChar,
                 rest.dropWhile urlChar)
    | ':' :: '/' :: '/' :: rest =>
      if (rest.takeWhile urlChar).isEmpty then none
      else some (['h', 't', 't', 'p', ':', '/', '/'] ++ rest.takeWhile urlChar,
                 rest.dropWhile urlChar)
    | _ => none
  else none

/-- Left-to-right non-overlapping scan of `re.findall` for the URL pattern.
Every scan step consumes at least one character, so `r.length` fuel always
suffices. -/
def findUrlsAux : Nat → List Char → List (List Char)
  | 0, _ => []
  | fuel + 1, r =>
    match urlMatchAt r with
    | some ur => ur.1 :: findUrlsAux fuel ur.2
    | none =>
      match r with
      | [] => []
      | _ :: cs => findUrlsAux fuel cs

/-- All matches of `https?://[^\s|]+` in order of occurrence. -/
def findUrls (l : List Char) : List (List Char) := findUrlsAux l.length l

/-!
The request pipeline `KabaddiSystem.answer`.

External collaborators are supplied as an environment: the parallel
`RunnablePassthrough.assign(raw_query=..., query=...)` step invokes the
query-generation chain twice on the same input, so the environment records the
two (possibly different, the model being nondeterministic) raw responses
`gen1` (bound to the unused `raw_query` key) and `gen2` (the branch composed
with `clean_sql_query` whose result becomes `query`); the executor is a
function of the executed SQL text, and the rephraser a function of the
question, the cleaned query and the execution result.  An `Except` error
models a raised exception, caught by the `except` handler of the source.
-/

/-- Result of one collaborator call: a returned text or a raised exception. -/
structure Env where
  gen1 : Except String String
  gen2 : Except String String
  exec : String → Except String String
  rephrase : String → String → String → Except String String

/-- Modelled from the spec: `TokenAccountant.count`.  The concrete encoder of
the source (`tiktoken.get_encoding("cl100k_base")`, an external library) is
not part of the repository; per the spec's interface contract it is one fixed,
globally shared, deterministic text-to-token encoding returning an integer
count that is at least zero, modelled here as the character-level encoding. -/
def tokenCount (s : String) : Nat := s.length

/-- The `SYSTEM_PROMPT_TEMPLATE` of the source with its `{input}`,
`{table_info}` and `{top_k}` placeholders filled, as done by
`SYSTEM_PROMPT_TEMPLATE.format(input=question, table_info=..., top_k="5")`. -/
def SYSTEM_PROMPT_TEMPLATE (input table_info top_k : String) : String :=
  "\nYou are a SQLite expert. Given a natural language input question, perform the following steps:\n\n1. Understand the user's intent, even if the input contains typos, grammar issues, or miswritten names.\n2. Generate a syntactically correct and executable **SQLite** query.\n3. Use only the tables described below. Do not hallucinate or assume additional tables or columns.\n4. Limit results to a maximum of "
  ++ top_k ++
  ", if applicable.\n\n## Matching Rules:\n- All string/text comparisons must be **case-insensitive**.\n- Use `LOWER(column_name) = LOWER('value')` or `COLLATE NOCASE` to enforce case-insensitivity.\n- Handle minor typos and fuzzy name matches to infer intent.\n\n## Allowed Tables:\n"
  ++ table_info ++
  "\n\n\n## Output Formatting Rules:\n- Do not explain the SQL query or add extra information beyond the results.\n- Do not assume data not present in the database.\n- If an error occurs, clearly indicate the SQL issue without guessing results.\n- Format answers only based on the query output.\n\n## SQL Query Formatting:\n- Write syntactically correct SQL queries.\n- If combining multiple SELECTs with `UNION` or `UNION ALL`, **do NOT place `LIMIT` clauses inside individual SELECT statements**.\n- Instead, apply a single `LIMIT` clause **after the entire UNION expression**\n- Avoid SQL syntax errors related to clause ordering.\n\nQuestion: "
  ++ input ++ "\n"

/-- One `{"url": u}` entry of `raw_results`. -/
structure UrlEntry where
  url : String
deriving DecidableEq

/-- The `QueryData` payload of the response envelope. -/
structure QueryData where
  answer : String
  query : String
  tokens_used : Nat
  raw_results : List UrlEntry
deriving DecidableEq

/-- The response envelope returned by `KabaddiSystem.answer`. -/
structure Response where
  status : String
  data : QueryData
  timestamp : String
deriving DecidableEq

/-- Record of how the collaborators were used during one run: how many times
the query-generation chain was invoked, with which SQL text the executor was
called (if reached), and how many times the rephraser was invoked. -/
structure CallLog where
  genCalls : Nat
  execArg : Option String
  rephraseCalls : Nat
deriving DecidableEq

/-- The `{"url": u}` list built from the final answer on the success path. -/
def urlDicts (ans : String) : List UrlEntry :=
  (findUrls ans.data).map (fun u => ⟨⟨u⟩⟩)

/-- The error envelope of the `except` handler: empty answer and query, the
input-prompt token count measured before the `try` block, and the default
empty `raw_results`. -/
def errorResponse (input_tokens : Nat) (now : String) : Response :=
  ⟨"error", ⟨"", "", input_tokens, []⟩, now⟩

/-- The success envelope: the answer, the cleaned query, the sum of input and
output token counts, and the URLs extracted from the answer. -/
def successResponse (ans query : String) (input_tokens : Nat) (now : String) : Response :=
  ⟨"success", ⟨ans, query, input_tokens + tokenCount ans, urlDicts ans⟩, now⟩

/-- The `KabaddiSystem.answer` pipeline of the source: measure the input
prompt, run the chain (two generation calls in the parallel assign step, then
execution of the cleaned second response, then the empty-result short-circuit
or the rephraser), and assemble the success envelope, or the error envelope if
any collaborator raised.  The timestamp `datetime.now().isoformat()` is
supplied as the argument `now`. -/
def KabaddiSystem.answer (env : Env) (table_info question now : String) :
    Response × CallLog :=
  let input_tokens := tokenCount (SYSTEM_PROMPT_TEMPLATE question table_info "5")
  match env.gen1 with
  | .error _ => (errorResponse input_tokens now, ⟨2, none, 0⟩)
  | .ok _ =>
    match env.gen2 with
    | .error _ => (errorResponse input_tokens now, ⟨2, none, 0⟩)
    | .ok rawSql =>
      let query := clean_sql_query rawSql
      match env.exec query with
      | .error _ => (errorResponse input_tokens now, ⟨2, some query, 0⟩)
      | .ok result =>
        if (trimWs result.data).isEmpty then
          (successResponse "No data available." query input_tokens now, ⟨2, some query, 0⟩)
        else
          match env.rephrase question query result with
          | .error _ => (errorResponse input_tokens now, ⟨2, some query, 1⟩)
          | .ok ans => (successResponse ans query input_tokens now, ⟨2, some query, 1⟩)

/-- Whether some stage of the chain raises: either generation branch, the
executor on the cleaned second response, or (when the result is non-empty
after trimming) the rephraser. -/
def stageFails (env : Env) (question : String) : Bool :=
  match env.gen1 with
  | .error _ => true
  | .ok _ =>
    match env.gen2 with
    | .error _ => true
    | .ok rawSql =>
      match env.exec (clean_sql_query rawSql) with
      | .error _ => true
      | .ok result =>
        if (trimWs result.data).isEmpty then false
        else
          match env.rephrase question (clean_sql_query rawSql) result with
          | .error _ => true
          | .ok _ => false

/-- Number of semicolons (statement terminators) in a text. -/
def countSemi : List Char → Nat
  | [] => 0
  | c :: cs => (if c = ';' then 1 else 0) + countSemi cs

/-- Last character of a text, if any. -/
def lastChar? : List Char → Option Char
  | [] => none
  | [c] => some c
  | _ :: c :: cs => lastChar? (c :: cs)

example : clean_sql_query "```sql\nSELECT * FROM S_RBR;\n```" = "SELECT * FROM S_RBR;" := by decide

example : clean_sql_query "SQLQuery: SELECT name FROM S_RBR WHERE team='X';"
    = "SELECT name FROM S_RBR WHERE team='X';" := by decide

example : clean_sql_query "a  b" = "a b" := by decide

example : clean_sql_query " x" = "x" := by decide

example : clean_sql_query "x ```sql\na\n``` y" = "x a y" := by decide

/-!
Helper lemmas about the character classes and scanning functions.
-/

theorem pyWs_toLower {c : Char} (h : pyWs c = true) : c.toLower = c := by
  simp only [pyWs, Bool.or_eq_true, beq_iff_eq] at h
  rcases h with ((((rfl | rfl) | rfl) | rfl) | rfl) | rfl <;> decide

theorem matched_not_ws {c x : Char} (hx : pyWs x = false) (h : c.toLower = x) :
    pyWs c = false := by
  by_contra hc
  rw [Bool.not_eq_false] at hc
  rw [pyWs_toLower hc] at h
  rw [h] at hc
  rw [hc] at hx
  exact Bool.true_eq_false.mp hx

theorem ciHead_append {p l : List Char} (v : List Char) (h : ciHead p l = true) :
    ciHead p (l ++ v) = true := by
  induction p generalizing l with
  | nil => rfl
  | cons x ps ih =>
    cases l with
    | nil => exact absurd h (by simp [ciHead])
    | cons c cs =>
      simp only [ciHead, Bool.and_eq_true] at h ⊢
      exact ⟨h.1, ih h.2⟩

theorem ciHead_length {p l : List Char} (h : ciHead p l = true) : p.length ≤ l.length := by
  induction p generalizing l with
  | nil => simp
  | cons x ps ih =>
    cases l with
    | nil => exact absurd h (by simp [ciHead])
    | cons c cs =>
      simp only [ciHead, Bool.and_eq_true] at h
      simpa using ih h.2

theorem ciHead_take_append {p l : List Char} (v : List Char) (h : ciHead p l = true) :
    ciHead p (l.take p.length ++ v) = true := by
  induction p generalizing l with
  | nil => rfl
  | cons x ps ih =>
    cases l with
    | nil => exact absurd h (by simp [ciHead])
    | cons c cs =>
      simp only [ciHead, Bool.and_eq_true] at h ⊢
      exact ⟨h.1, ih h.2⟩

theorem ciHead_sel_two : ∀ l, ciHead selectChars l = true →
    ∃ b0 b1 rest, l = b0 :: b1 :: rest ∧ b0.toLower = 's' ∧ b1.toLower = 'e'
  | [], h => by simp [ciHead, selectChars] at h
  | [b0], h => by simp [ciHead, selectChars] at h
  | b0 :: b1 :: rest, h => by
    simp only [selectChars, ciHead, Bool.and_eq_true, beq_iff_eq] at h
    exact ⟨b0, b1, rest, rfl, h.1, h.2.1⟩

theorem ciHead_collapse {p l : List Char} (hp : ∀ x ∈ p, pyWs x = false)
    (h : ciHead p l = true) : ciHead p (collapseWs l) = true := by
  induction p generalizing l with
  | nil => rfl
  | cons x ps ih =>
    cases l with
    | nil => exact absurd h (by simp [ciHead])
    | cons c cs =>
      simp only [ciHead, Bool.and_eq_true, beq_iff_eq] at h
      have hcws : pyWs c = false :=
        matched_not_ws (hp x (List.mem_cons_self x ps)) h.1
      have : collapseWs (c :: cs) = c :: collapseWs cs := by
        simp [collapseWs, collapseAux, hcws]
      rw [this]
      simp only [ciHead, Bool.and_eq_true, beq_iff_eq]
      exact ⟨h.1, ih (fun y hy => hp y (List.mem_cons_of_mem x hy)) h.2⟩

theorem countSemi_append (u v : List Char) :
    countSemi (u ++ v) = countSemi u + countSemi v := by
  induction u with
  | nil => simp [countSemi]
  | cons c cs ih => simp [countSemi, ih]; omega

theorem countSemi_eq_zero {u : List Char} (h : ∀ c ∈ u, c ≠ ';') : countSemi u = 0 := by
  induction u with
  | nil => rfl
  | cons c cs ih =>
    simp only [countSemi, if_neg (h c (List.mem_cons_self c cs)), Nat.zero_add]
    exact ih (fun y hy => h y (List.mem_cons_of_mem c hy))

theorem ciHead_countSemi_take {p l : List Char} (hp : ∀ x ∈ p, x ≠ ';')
    (h : ciHead p l = true) : countSemi (l.take p.length) = 0 := by
  induction p generalizing l with
  | nil => rfl
  | cons x ps ih =>
    cases l with
    | nil => exact absurd h (by simp [ciHead])
    | cons c cs =>
      simp only [ciHead, Bool.and_eq_true, beq_iff_eq] at h
      have hc : c ≠ ';' := by
        intro hcc
        subst hcc
        exact hp x (List.mem_cons_self x ps) (by simpa using h.1.symm)
      simp only [List.length_cons, List.take_succ_cons, countSemi, if_neg hc, Nat.zero_add]
      exact ih (fun y hy => hp y (List.mem_cons_of_mem x hy)) h.2

theorem lastChar?_cons_cons (a b : Char) (l : List Char) :
    lastChar? (a :: b :: l) = lastChar? (b :: l) := rfl

theorem lastChar?_concat (u : List Char) (c : Char) : lastChar? (u ++ [c]) = some c := by
  induction u with
  | nil => rfl
  | cons a us ih =>
    cases us with
    | nil => rfl
    | cons b vs => simpa [lastChar?_cons_cons] using ih

theorem lastChar?_some_ne_nil {l : List Char} {c : Char} (h : lastChar? l = some c) :
    l ≠ [] := by
  intro hl
  subst hl
  exact absurd h (by simp [lastChar?])

theorem lastChar?_cons_of_ne_nil {r : List Char} (x : Char) (h : r ≠ []) :
    lastChar? (x :: r) = lastChar? r := by
  cases r with
  | nil => exact absurd rfl h
  | cons b vs => rfl

theorem collapseAux_cons (flag : Bool) (a : Char) (l : List Char) :
    collapseAux flag (a :: l) =
      if pyWs a then (if flag then collapseAux true l else ' ' :: collapseAux true l)
      else a :: collapseAux false l := rfl

theorem collapseAux_cons_ws_true {a : Char} (l : List Char) (ha : pyWs a = true) :
    collapseAux true (a :: l) = collapseAux true l := by
  rw [collapseAux_cons, ha]
  simp

theorem collapseAux_cons_ws_false {a : Char} (l : List Char) (ha : pyWs a = true) :
    collapseAux false (a :: l) = ' ' :: collapseAux true l := by
  rw [collapseAux_cons, ha]
  simp

theorem collapseAux_cons_nonws {a : Char} (flag : Bool) (l : List Char) (ha : pyWs a = false) :
    collapseAux flag (a :: l) = a :: collapseAux false l := by
  rw [collapseAux_cons, ha]
  simp

theorem collapseAux_last {l : List Char} {c : Char} (hc : pyWs c = false) :
    ∀ flag, lastChar? l = some c → lastChar? (collapseAux flag l) = some c := by
  induction l with
  | nil => intro flag h; exact absurd h (by simp [lastChar?])
  | cons a as ih =>
    intro flag h
    cases as with
    | nil =>
      have : a = c := by simpa [lastChar?] using h
      subst this
      rw [collapseAux_cons_nonws flag [] hc]
      rfl
    | cons b vs =>
      rw [lastChar?_cons_cons] at h
      have htail : ∀ fl, lastChar? (collapseAux fl (b :: vs)) = some c := fun fl => ih fl h
      have hne : ∀ fl, collapseAux fl (b :: vs) ≠ [] := fun fl => lastChar?_some_ne_nil (htail fl)
      by_cases ha : pyWs a = true
      · cases flag with
        | true =>
          rw [collapseAux_cons_ws_true _ ha]
          exact htail true
        | false =>
          rw [collapseAux_cons_ws_false _ ha]
          rw [lastChar?_cons_of_ne_nil _ (hne true)]
          exact htail true
      · rw [Bool.not_eq_true] at ha
        rw [collapseAux_cons_nonws flag _ ha]
        rw [lastChar?_cons_of_ne_nil _ (hne false)]
        exact htail false

theorem collapseAux_countSemi (l : List Char) : ∀ flag,
    countSemi (collapseAux flag l) = countSemi l := by
  induction l with
  | nil => intro flag; rfl
  | cons a as ih =>
    intro flag
    by_cases ha : pyWs a = true
    · have hane : a ≠ ';' := by
        intro hcc
        subst hcc
        exact absurd ha (by decide)
      have hr : countSemi (a :: as) = countSemi as := by
        simp [countSemi, if_neg hane]
      cases flag with
      | true =>
        rw [collapseAux_cons_ws_true _ ha, hr]
        exact ih true
      | false =>
        rw [collapseAux_cons_ws_false _ ha, hr]
        have : countSemi (' ' :: collapseAux true as) = countSemi (collapseAux true as) := by
          simp [countSemi]
        rw [this]
        exact ih true
    · rw [Bool.not_eq_true] at ha
      rw [collapseAux_cons_nonws flag _ ha]
      simp only [countSemi, ih false]

theorem dropTrailingWs_concat_nonws (u : List Char) {c : Char} (hc : pyWs c = false) :
    dropTrailingWs (u ++ [c]) = u ++ [c] := by
  simp [dropTrailingWs, List.dropWhile_cons, hc]

theorem dropTrailingWs_concat_ws (u : List Char) {c : Char} (hc : pyWs c = true) :
    dropTrailingWs (u ++ [c]) = dropTrailingWs u := by
  simp [dropTrailingWs, List.dropWhile_cons, hc]

theorem takeThroughSemi_eq {u : List Char} (v : List Char) (h : ∀ c ∈ u, c ≠ ';') :
    takeThroughSemi (u ++ ';' :: v) = some (u ++ [';']) := by
  induction u with
  | nil => simp [takeThroughSemi]
  | cons a us ih =>
    have ha : a ≠ ';' := h a (List.mem_cons_self a us)
    simp [takeThroughSemi, if_neg ha,
      ih (fun y hy => h y (List.mem_cons_of_mem a hy))]

theorem takeThroughSemi_some : ∀ {l r : List Char}, takeThroughSemi l = some r →
    ∃ u v, l = u ++ ';' :: v ∧ r = u ++ [';'] ∧ ∀ c ∈ u, c ≠ ';' := by
  intro l
  induction l with
  | nil => intro r h; exact absurd h (by simp [takeThroughSemi])
  | cons a as ih =>
    intro r h
    by_cases ha : a = ';'
    · subst ha
      refine ⟨[], as, rfl, ?_, by simp⟩
      simpa [takeThroughSemi] using h.symm
    · rw [takeThroughSemi, if_neg ha, Option.map_eq_some'] at h
      obtain ⟨r', hr', hmap⟩ := h
      obtain ⟨u, v, hl, hru, hu⟩ := ih hr'
      refine ⟨a :: u, v, by rw [hl]; rfl, by rw [← hmap, hru]; rfl, ?_⟩
      intro y hy
      rcases List.mem_cons.mp hy with rfl | hy'
      · exact ha
      · exact hu y hy'

theorem findSelect_cons_pos {c : Char} {cs tail : List Char}
    (hsel : ciHead selectChars (c :: cs) = true)
    (htk : takeThroughSemi ((c :: cs).drop 6) = some tail) :
    findSelect (c :: cs) = some ((c :: cs).take 6 ++ tail) := by
  rw [findSelect, hsel, htk]
  simp

theorem findSelect_cons_pos_none {c : Char} {cs : List Char}
    (hsel : ciHead selectChars (c :: cs) = true)
    (htk : takeThroughSemi ((c :: cs).drop 6) = none) :
    findSelect (c :: cs) = findSelect cs := by
  rw [findSelect, hsel, htk]
  simp

theorem findSelect_cons_neg {c : Char} {cs : List Char}
    (hsel : ciHead selectChars (c :: cs) = false) :
    findSelect (c :: cs) = findSelect cs := by
  rw [findSelect, hsel]
  simp

theorem findSelect_cons_not_s {c : Char} (cs : List Char) (h : (c.toLower == 's') = false) :
    findSelect (c :: cs) = findSelect cs := by
  apply findSelect_cons_neg
  simp only [selectChars, ciHead, h, Bool.false_and]

theorem findSelect_some : ∀ {t m : List Char}, findSelect t = some m →
    ciHead selectChars m = true ∧ ∃ w, m = w ++ [';'] ∧ countSemi w = 0 := by
  intro t
  induction t with
  | nil => intro m h; exact absurd h (by simp [findSelect])
  | cons c cs ih =>
    intro m h
    by_cases hsel : ciHead selectChars (c :: cs) = true
    · cases htk : takeThroughSemi ((c :: cs).drop 6) with
      | none =>
        rw [findSelect_cons_pos_none hsel htk] at h
        exact ih h
      | some tail =>
        rw [findSelect_cons_pos hsel htk] at h
        have hm : (c :: cs).take 6 ++ tail = m := Option.some.inj h
        subst hm
        obtain ⟨u, v, hl, hru, hu⟩ := takeThroughSemi_some htk
        constructor
        · exact ciHead_take_append tail hsel
        · refine ⟨(c :: cs).take 6 ++ u, by rw [hru, List.append_assoc], ?_⟩
          rw [countSemi_append, countSemi_eq_zero hu]
          have h6 : countSemi ((c :: cs).take 6) = 0 :=
            ciHead_countSemi_take (by decide) hsel
          rw [h6]
    · rw [Bool.not_eq_true] at hsel
      rw [findSelect_cons_neg hsel] at h
      exact ih h

theorem findSelect_start {body : List Char} (hsel : ciHead selectChars body = true)
    (hsemi : ∀ c ∈ body, c ≠ ';') :
    findSelect (body ++ [';']) = some (body ++ [';']) := by
  obtain ⟨b0, b1, rest, hb, _, _⟩ := ciHead_sel_two body hsel
  have h6 : 6 ≤ body.length := by
    have := ciHead_length hsel
    simpa [selectChars] using this
  have hdrop : (body ++ [';']).drop 6 = body.drop 6 ++ [';'] := by
    rw [List.drop_append_eq_append_drop]
    have : 6 - body.length = 0 := Nat.sub_eq_zero_of_le h6
    rw [this]
    rfl
  have htake : (body ++ [';']).take 6 = body.take 6 := by
    rw [List.take_append_eq_append_take]
    have : 6 - body.length = 0 := Nat.sub_eq_zero_of_le h6
    rw [this]
    simp
  have htk : takeThroughSemi ((body ++ [';']).drop 6) = some (body.drop 6 ++ [';']) := by
    rw [hdrop]
    exact takeThroughSemi_eq [] (fun y hy => hsemi y (List.mem_of_mem_drop hy))
  have hsel' : ciHead selectChars (body ++ [';']) = true := ciHead_append [';'] hsel
  subst hb
  rw [List.cons_append, List.cons_append] at hsel' htk ⊢
  rw [findSelect_cons_pos hsel' htk]
  rw [← List.cons_append, ← List.cons_append] at htk ⊢
  rw [htake]
  rw [← List.append_assoc, List.take_append_drop]

theorem stripLabel_noop {t : List Char}
    (h1 : ciHead sqlChars t = false) (h2 : ciHead sqlqueryChars t = false)
    (h3 : ciHead mysqlChars t = false) (h4 : ciHead postgresqlChars t = false) :
    stripLabel t = t := by
  simp [stripLabel, labelAlt1, labelAlt2, labelAlt3, labelAlt4, labelAlt5, h1, h2, h3, h4]

theorem hasTicks_concat (u : List Char) : hasTicks (u ++ fenceTicks) = true := by
  induction u with
  | nil => decide
  | cons a us ih => simp [hasTicks, ih]

theorem splitTicks_concat : ∀ (u : List Char), (∀ c ∈ u, c ≠ tick) →
    splitTicks (u ++ fenceTicks) = some (u, []) := by
  intro u
  induction u with
  | nil => intro _; decide
  | cons a us ih =>
    intro h
    have ha : (tick == a) = false := by
      have : a ≠ tick := h a (List.mem_cons_self a us)
      simp [beq_eq_false_iff_ne]
      exact fun hc => this hc.symm
    have hpre : fenceTicks.isPrefixOf (a :: (us ++ fenceTicks)) = false := by
      simp only [fenceTicks, List.isPrefixOf, ha, Bool.false_and]
    rw [List.cons_append, splitTicks, hpre]
    simp only [Bool.false_eq_true, if_false,
      ih (fun y hy => h y (List.mem_cons_of_mem a hy)), Option.map_some']

theorem subFencesAux_nil : ∀ n, subFencesAux n [] = []
  | 0 => rfl
  | _ + 1 => rfl

theorem subFences_whole {r g : List Char} (h : fenceMatchAt r = some (g, []))
    (hr : r ≠ []) : subFences r = g := by
  obtain ⟨a, as, rfl⟩ : ∃ a as, r = a :: as := by
    cases r with
    | nil => exact absurd rfl hr
    | cons a as => exact ⟨a, as, rfl⟩
  show subFencesAux (a :: as).length (a :: as) = g
  rw [List.length_cons, subFencesAux, h]
  show g ++ subFencesAux as.length [] = g
  rw [subFencesAux_nil, List.append_nil]

theorem clean_eq_of_findSelect {text : String} {m : List Char}
    (h : findSelect (stripLabel (subFences text.data)) = some m) :
    clean_sql_query text = ⟨normWs m⟩ := by
  simp [clean_sql_query, h]

theorem clean_eq_of_none {text : String}
    (h : findSelect (stripLabel (subFences text.data)) = none) :
    clean_sql_query text = ⟨normWs (stripLabel (subFences text.data))⟩ := by
  simp [clean_sql_query, h]

theorem trimWs_select {m w : List Char} (hsel : ciHead selectChars m = true)
    (hw : m = w ++ [';']) : trimWs m = m := by
  obtain ⟨b0, b1, rest, hb, hb0, _⟩ := ciHead_sel_two m hsel
  have hb0ws : pyWs b0 = false := matched_not_ws (by decide) hb0
  unfold trimWs
  have h1 : m.dropWhile pyWs = m := by
    rw [hb]
    simp [List.dropWhile_cons, hb0ws]
  rw [h1, hw]
  exact dropTrailingWs_concat_nonws w (by decide)

theorem normWs_select_props {m w : List Char} (hsel : ciHead selectChars m = true)
    (hw : m = w ++ [';']) (hcnt : countSemi w = 0) :
    ciHead selectChars (normWs m) = true ∧ lastChar? (normWs m) = some ';' ∧
      countSemi (normWs m) = 1 := by
  have htrim : trimWs m = m := trimWs_select hsel hw
  unfold normWs
  rw [htrim]
  refine ⟨ciHead_collapse (by decide) hsel, ?_, ?_⟩
  · apply collapseAux_last (by decide) false
    rw [hw]
    exact lastChar?_concat w ';'
  · show countSemi (collapseAux false m) = 1
    rw [collapseAux_countSemi m false, hw, countSemi_append, hcnt]
    rfl

theorem hasTicks_tail (w : List Char) : hasTicks (w ++ ('\n' :: fenceTicks)) = true := by
  have hshape : w ++ ('\n' :: fenceTicks) = (w ++ ['\n']) ++ fenceTicks := by simp
  rw [hshape]
  exact hasTicks_concat _

theorem splitTicks_tail (w : List Char) (hw : ∀ c ∈ w, c ≠ tick) :
    splitTicks (w ++ ('\n' :: fenceTicks)) = some (w ++ ['\n'], []) := by
  have hshape : w ++ ('\n' :: fenceTicks) = (w ++ ['\n']) ++ fenceTicks := by simp
  rw [hshape]
  apply splitTicks_concat
  intro c hc
  rcases List.mem_append.mp hc with h | h
  · exact hw c h
  · have : c = '\n' := by simpa using h
    subst this
    decide

theorem dropTrailingWs_tail (x : List Char) :
    dropTrailingWs ((x ++ [';']) ++ ['\n']) = x ++ [';'] := by
  rw [dropTrailingWs_concat_ws _ (by decide)]
  exact dropTrailingWs_concat_nonws x (by decide)

theorem fenceMatchAt_steps {L r2 r3 g : List Char}
    (hpre : fenceTicks.isPrefixOf L = true)
    (hpick : pickTag fenceTags (L.drop 3) = some r2)
    (hdw : r2.dropWhile pyWs = r3)
    (hsplit : splitTicks r3 = some (g, [])) :
    fenceMatchAt L = some (dropTrailingWs g, []) := by
  rw [fenceMatchAt, if_pos hpre, hpick]
  show (match splitTicks (r2.dropWhile pyWs) with
    | some pq => some (dropTrailingWs pq.1, pq.2)
    | none => none) = some (dropTrailingWs g, [])
  rw [hdw, hsplit]

theorem clean_post_group (text : String) (rem body : List Char)
    (hsub : subFences text.data = rem ++ (body ++ [';']))
    (hstrip : stripLabel (rem ++ (body ++ [';'])) = rem ++ (body ++ [';']))
    (hfind : findSelect (rem ++ (body ++ [';'])) = some (body ++ [';']))
    (hsel : ciHead selectChars body = true) :
    clean_sql_query text = ⟨collapseWs (body ++ [';'])⟩ := by
  have h : findSelect (stripLabel (subFences text.data)) = some (body ++ [';']) := by
    rw [hsub, hstrip, hfind]
  rw [clean_eq_of_findSelect h]
  have htrim : trimWs (body ++ [';']) = body ++ [';'] :=
    trimWs_select (ciHead_append [';'] hsel) rfl
  unfold normWs
  rw [htrim]

theorem dropWhile_nl {b0 : Char} (x : List Char) (hb0ws : pyWs b0 = false) :
    ('\n' :: (b0 :: x)).dropWhile pyWs = b0 :: x := by
  rw [List.dropWhile_cons, if_pos (show pyWs '\n' = true from by decide),
    List.dropWhile_cons, if_neg (by simp [hb0ws])]

theorem pickTag_cons_neg {tg r1 : List Char} (tgs : List (List Char))
    (h : tg.isPrefixOf r1 = false) :
    pickTag (tg :: tgs) r1 = pickTag tgs r1 := by
  rw [pickTag, h]
  simp

theorem pickTag_cons_pos {tg r1 : List Char} (tgs : List (List Char))
    (h1 : tg.isPrefixOf r1 = true) (h2 : hasTicks (r1.drop tg.length) = true) :
    pickTag (tg :: tgs) r1 = some (r1.drop tg.length) := by
  rw [pickTag, h1, h2]
  simp

theorem clean_fence_plain (tg body : List Char)
    (hsel : ciHead selectChars body = true)
    (hsemi : ∀ c ∈ body, c ≠ ';')
    (htick : ∀ c ∈ body, c ≠ tick)
    (hpick : pickTag fenceTags
        ((fenceTicks ++ (tg ++ ('\n' :: ((body ++ [';']) ++ ('\n' :: fenceTicks))))).drop 3)
      = some ('\n' :: ((body ++ [';']) ++ ('\n' :: fenceTicks)))) :
    clean_sql_query ⟨fenceTicks ++ (tg ++ ('\n' :: ((body ++ [';']) ++ ('\n' :: fenceTicks))))⟩
      = ⟨collapseWs (body ++ [';'])⟩ := by
  obtain ⟨b0, b1, rest, hb, hb0, hb1⟩ := ciHead_sel_two body hsel
  have hb0ws : pyWs b0 = false := matched_not_ws (by decide) hb0
  have hpre : fenceTicks.isPrefixOf
      (fenceTicks ++ (tg ++ ('\n' :: ((body ++ [';']) ++ ('\n' :: fenceTicks))))) = true := by
    simp [fenceTicks, List.isPrefixOf]
  have hdw : ('\n' :: ((body ++ [';']) ++ ('\n' :: fenceTicks))).dropWhile pyWs
      = (body ++ [';']) ++ ('\n' :: fenceTicks) := by
    rw [hb]
    exact dropWhile_nl (((b1 :: rest) ++ [';']) ++ ('\n' :: fenceTicks)) hb0ws
  have hnotick : ∀ c ∈ body ++ [';'], c ≠ tick := by
    intro c hc
    rcases List.mem_append.mp hc with h | h
    · exact htick c h
    · have : c = ';' := by simpa using h
      subst this
      decide
  have hsplit : splitTicks ((body ++ [';']) ++ ('\n' :: fenceTicks))
      = some ((body ++ [';']) ++ ['\n'], []) := splitTicks_tail (body ++ [';']) hnotick
  have hfm : fenceMatchAt
      (fenceTicks ++ (tg ++ ('\n' :: ((body ++ [';']) ++ ('\n' :: fenceTicks)))))
      = some (body ++ [';'], []) := by
    have h0 := fenceMatchAt_steps hpre hpick hdw hsplit
    rw [dropTrailingWs_tail body] at h0
    exact h0
  have hne : fenceTicks ++ (tg ++ ('\n' :: ((body ++ [';']) ++ ('\n' :: fenceTicks)))) ≠ [] := by
    simp [fenceTicks]
  have hsub : subFences
      (String.mk (fenceTicks ++ (tg ++ ('\n' :: ((body ++ [';']) ++ ('\n' :: fenceTicks)))))).data
      = [] ++ (body ++ [';']) := subFences_whole hfm hne
  have h1 : ciHead sqlChars ([] ++ (body ++ [';'])) = false := by
    rw [List.nil_append, hb]
    simp [sqlChars, ciHead, hb1]
  have h2 : ciHead sqlqueryChars ([] ++ (body ++ [';'])) = false := by
    rw [List.nil_append, hb]
    simp [sqlqueryChars, ciHead, hb1]
  have h3 : ciHead mysqlChars ([] ++ (body ++ [';'])) = false := by
    rw [List.nil_append, hb]
    simp [mysqlChars, ciHead, hb0]
  have h4 : ciHead postgresqlChars ([] ++ (body ++ [';'])) = false := by
    rw [List.nil_append, hb]
    simp [postgresqlChars, ciHead, hb0]
  have hstrip : stripLabel ([] ++ (body ++ [';'])) = [] ++ (body ++ [';']) :=
    stripLabel_noop h1 h2 h3 h4
  have hfind : findSelect ([] ++ (body ++ [';'])) = some (body ++ [';']) := by
    rw [List.nil_append]
    exact findSelect_start hsel hsemi
  exact clean_post_group _ [] body hsub hstrip hfind hsel

theorem notick_body {body : List Char} (htick : ∀ c ∈ body, c ≠ tick) :
    ∀ c ∈ body ++ [';'], c ≠ tick := by
  intro c hc
  rcases List.mem_append.mp hc with h | h
  · exact htick c h
  · have : c = ';' := by simpa using h
    subst this
    decide

theorem clean_fence_query (body : List Char)
    (hsel : ciHead selectChars body = true)
    (hsemi : ∀ c ∈ body, c ≠ ';')
    (htick : ∀ c ∈ body, c ≠ tick) :
    clean_sql_query ⟨fenceTicks ++ (['S', 'Q', 'L', 'Q', 'u', 'e', 'r', 'y'] ++
        ('\n' :: ((body ++ [';']) ++ ('\n' :: fenceTicks))))⟩
      = ⟨collapseWs (body ++ [';'])⟩ := by
  have hpre : fenceTicks.isPrefixOf
      (fenceTicks ++ (['S', 'Q', 'L', 'Q', 'u', 'e', 'r', 'y'] ++
        ('\n' :: ((body ++ [';']) ++ ('\n' :: fenceTicks))))) = true := by
    simp [fenceTicks, List.isPrefixOf]
  have hpick : pickTag fenceTags
      ((fenceTicks ++ (['S', 'Q', 'L', 'Q', 'u', 'e', 'r', 'y'] ++
        ('\n' :: ((body ++ [';']) ++ ('\n' :: fenceTicks))))).drop 3)
      = some (['Q', 'u', 'e', 'r', 'y'] ++ ('\n' :: ((body ++ [';']) ++ ('\n' :: fenceTicks)))) := by
    have e1 : (['s', 'q', 'l'] : List Char).isPrefixOf
        ((fenceTicks ++ (['S', 'Q', 'L', 'Q', 'u', 'e', 'r', 'y'] ++
          ('\n' :: ((body ++ [';']) ++ ('\n' :: fenceTicks))))).drop 3) = false := by
      simp [fenceTicks, List.isPrefixOf]
    have e2 : (['S', 'Q', 'L'] : List Char).isPrefixOf
        ((fenceTicks ++ (['S', 'Q', 'L', 'Q', 'u', 'e', 'r', 'y'] ++
          ('\n' :: ((body ++ [';']) ++ ('\n' :: fenceTicks))))).drop 3) = true := by
      simp [fenceTicks, List.isPrefixOf]
    have e3 : hasTicks
        (((fenceTicks ++ (['S', 'Q', 'L', 'Q', 'u', 'e', 'r', 'y'] ++
          ('\n' :: ((body ++ [';']) ++ ('\n' :: fenceTicks))))).drop 3).drop
            (['S', 'Q', 'L'] : List Char).length) = true :=
      hasTicks_tail (['Q', 'u', 'e', 'r', 'y'] ++ ('\n' :: (body ++ [';'])))
    unfold fenceTags
    rw [pickTag_cons_neg _ e1, pickTag_cons_pos _ e2 e3]
    rfl
  have hdw : (['Q', 'u', 'e', 'r', 'y'] ++
      ('\n' :: ((body ++ [';']) ++ ('\n' :: fenceTicks)))).dropWhile pyWs
      = ['Q', 'u', 'e', 'r', 'y'] ++ ('\n' :: ((body ++ [';']) ++ ('\n' :: fenceTicks))) := by
    rw [List.cons_append, List.dropWhile_cons, if_neg (show ¬(pyWs 'Q' = true) from by decide)]
  have hsplit : splitTicks
      (['Q', 'u', 'e', 'r', 'y'] ++ ('\n' :: ((body ++ [';']) ++ ('\n' :: fenceTicks))))
      = some ((['Q', 'u', 'e', 'r', 'y', '\n'] ++ (body ++ [';'])) ++ ['\n'], []) := by
    have hw : ∀ c ∈ ['Q', 'u', 'e', 'r', 'y', '\n'] ++ (body ++ [';']), c ≠ tick := by
      intro c hc
      rcases List.mem_append.mp hc with h | h
      · fin_cases h <;> decide
      · exact notick_body htick c h
    exact splitTicks_tail (['Q', 'u', 'e', 'r', 'y', '\n'] ++ (body ++ [';'])) hw
  have hfm : fenceMatchAt
      (fenceTicks ++ (['S', 'Q', 'L', 'Q', 'u', 'e', 'r', 'y'] ++
        ('\n' :: ((body ++ [';']) ++ ('\n' :: fenceTicks)))))
      = some (['Q', 'u', 'e', 'r', 'y', '\n'] ++ (body ++ [';']), []) := by
    have h0 := fenceMatchAt_steps hpre hpick hdw hsplit
    have hdt : dropTrailingWs ((['Q', 'u', 'e', 'r', 'y', '\n'] ++ (body ++ [';'])) ++ ['\n'])
        = ['Q', 'u', 'e', 'r', 'y', '\n'] ++ (body ++ [';']) :=
      dropTrailingWs_tail (['Q', 'u', 'e', 'r', 'y', '\n'] ++ body)
    rw [hdt] at h0
    exact h0
  have hne : fenceTicks ++ (['S', 'Q', 'L', 'Q', 'u', 'e', 'r', 'y'] ++
      ('\n' :: ((body ++ [';']) ++ ('\n' :: fenceTicks)))) ≠ [] := by
    simp [fenceTicks]
  have hsub : subFences
      (String.mk (fenceTicks ++ (['S', 'Q', 'L', 'Q', 'u', 'e', 'r', 'y'] ++
        ('\n' :: ((body ++ [';']) ++ ('\n' :: fenceTicks)))))).data
      = ['Q', 'u', 'e', 'r', 'y', '\n'] ++ (body ++ [';']) := subFences_whole hfm hne
  have eq1 : ('Q'.toLower == 's') = false := by decide
  have eq3 : ('Q'.toLower == 'm') = false := by decide
  have eq4 : ('Q'.toLower == 'p') = false := by decide
  have hq1 : ciHead sqlChars (['Q', 'u', 'e', 'r', 'y', '\n'] ++ (body ++ [';'])) = false := by
    simp [sqlChars, ciHead, List.cons_append, eq1]
  have hq2 : ciHead sqlqueryChars (['Q', 'u', 'e', 'r', 'y', '\n'] ++ (body ++ [';'])) = false := by
    simp [sqlqueryChars, ciHead, List.cons_append, eq1]
  have hq3 : ciHead mysqlChars (['Q', 'u', 'e', 'r', 'y', '\n'] ++ (body ++ [';'])) = false := by
    simp [mysqlChars, ciHead, List.cons_append, eq3]
  have hq4 : ciHead postgresqlChars (['Q', 'u', 'e', 'r', 'y', '\n'] ++ (body ++ [';'])) = false := by
    simp [postgresqlChars, ciHead, List.cons_append, eq4]
  have hstrip : stripLabel (['Q', 'u', 'e', 'r', 'y', '\n'] ++ (body ++ [';']))
      = ['Q', 'u', 'e', 'r', 'y', '\n'] ++ (body ++ [';']) :=
    stripLabel_noop hq1 hq2 hq3 hq4
  have hfind : findSelect (['Q', 'u', 'e', 'r', 'y', '\n'] ++ (body ++ [';']))
      = some (body ++ [';']) := by
    have f1 : ('Q'.toLower == 's') = false := by decide
    have f2 : ('u'.toLower == 's') = false := by decide
    have f3 : ('e'.toLower == 's') = false := by decide
    have f4 : ('r'.toLower == 's') = false := by decide
    have f5 : ('y'.toLower == 's') = false := by decide
    have f6 : ('\n'.toLower == 's') = false := by decide
    simp only [List.cons_append, List.nil_append]
    rw [findSelect_cons_not_s _ f1, findSelect_cons_not_s _ f2, findSelect_cons_not_s _ f3,
      findSelect_cons_not_s _ f4, findSelect_cons_not_s _ f5, findSelect_cons_not_s _ f6]
    exact findSelect_start hsel hsemi
  exact clean_post_group _ (['Q', 'u', 'e', 'r', 'y', '\n']) body hsub hstrip hfind hsel

/-!
Claim theorems.
-/

/-- C1 counterexample: on the raw text `" x"` no SELECT-terminated statement is
isolated, yet the cleaned text `"x"` is non-empty, does not begin with the token
SELECT, and is not the unmodified raw text — refuting the original fallback
clause of the invariant. -/
theorem C1_counterexample :
    findSelect (stripLabel (subFences (" x").data)) = none ∧
    clean_sql_query " x" ≠ "" ∧
    ciHead selectChars (clean_sql_query " x").data = false ∧
    clean_sql_query " x" ≠ " x" := by decide

/-- C1 (amended): for every raw model output text, the cleaned text produced by
`clean_sql_query`, if non-empty, either begins with the case-insensitive token
SELECT and ends with the statement terminator `;`, or it equals the fence- and
label-stripped raw text with whitespace trimmed and collapsed (rather than the
unmodified raw text, which the whitespace normalisation step generally alters). -/
theorem C1_amended_invariant (text : String) (_hne : clean_sql_query text ≠ "") :
    (ciHead selectChars (clean_sql_query text).data = true ∧
      lastChar? (clean_sql_query text).data = some ';')
    ∨ clean_sql_query text = ⟨normWs (stripLabel (subFences text.data))⟩ := by
  cases hm : findSelect (stripLabel (subFences text.data)) with
  | none => exact Or.inr (clean_eq_of_none hm)
  | some m =>
    left
    obtain ⟨hcim, w, hw, hcnt⟩ := findSelect_some hm
    have hprops := normWs_select_props hcim hw hcnt
    rw [clean_eq_of_findSelect hm]
    exact ⟨hprops.1, hprops.2.1⟩

/-- C1 witness: the amended invariant instantiated on a non-empty cleaned text. -/
theorem C1_witness :
    (ciHead selectChars (clean_sql_query "SELECT 1;").data = true ∧
      lastChar? (clean_sql_query "SELECT 1;").data = some ';')
    ∨ clean_sql_query "SELECT 1;" = ⟨normWs (stripLabel (subFences ("SELECT 1;").data))⟩ :=
  C1_amended_invariant "SELECT 1;" (by decide)

/-- C3 counterexample: on the raw text `"a  b"` (no fence, no label, no SELECT
statement) the extractor returns `"a b"`, which differs from the label/fence-
stripped input `"a  b"` — the final whitespace collapse refutes the claim that
the stripped input is returned unchanged. -/
theorem C3_counterexample :
    stripLabel (subFences ("a  b").data) = ("a  b").data ∧
    findSelect (("a  b").data) = none ∧
    clean_sql_query "a  b" ≠ "a  b" := by decide

/-- C3 (amended): `clean_sql_query` is a total function (it never fails), and on
every input in which no SELECT-terminated substring is found after fence and
label stripping it returns the stripped input with whitespace runs collapsed to
single spaces and outer whitespace trimmed. -/
theorem C3_amended_fallback (text : String)
    (h : findSelect (stripLabel (subFences text.data)) = none) :
    clean_sql_query text = ⟨normWs (stripLabel (subFences text.data))⟩ :=
  clean_eq_of_none h

/-- C3 witness: the amended fallback instantiated on `"a  b"`. -/
theorem C3_witness :
    clean_sql_query "a  b" = ⟨normWs (stripLabel (subFences ("a  b").data))⟩ :=
  C3_amended_fallback "a  b" (by decide)

/-- C10: for every input on which the SELECT-statement search of
`clean_sql_query` succeeds, the returned string ends with a semicolon and
contains exactly one semicolon — the non-greedy match stops at the first
statement terminator. -/
theorem C10_single_statement (text : String) (m : List Char)
    (h : findSelect (stripLabel (subFences text.data)) = some m) :
    lastChar? (clean_sql_query text).data = some ';' ∧
    countSemi (clean_sql_query text).data = 1 := by
  obtain ⟨hcim, w, hw, hcnt⟩ := findSelect_some h
  have hprops := normWs_select_props hcim hw hcnt
  rw [clean_eq_of_findSelect h]
  exact ⟨hprops.2.1, hprops.2.2⟩

/-- C10 witness: on `"junk SELECT a; tail;"` the search succeeds with match
`"SELECT a;"` and the cleaned output ends with its only semicolon. -/
theorem C10_witness :
    lastChar? (clean_sql_query "junk SELECT a; tail;").data = some ';' ∧
    countSemi (clean_sql_query "junk SELECT a; tail;").data = 1 :=
  C10_single_statement "junk SELECT a; tail;" (String.data "SELECT a;") (by decide)

/-- C8 counterexample: the raw text `"x ```sql\na\n``` y"` contains a fenced
block with a recognised tag, but extraction returns `"x a y"` — the text
surrounding the fence is kept — and not the fenced content `"a"` alone. -/
theorem C8_counterexample :
    clean_sql_query "x ```sql\na\n``` y" = "x a y" ∧
    clean_sql_query "x ```sql\na\n``` y" ≠ ⟨collapseWs (String.data "a")⟩ := by decide

/-- C8 (amended): if the raw text is exactly one fenced code block — three
backticks, a tag among sql, SQL, SQLQuery, mysql, postgresql or no tag, a
newline, a SELECT statement whose body contains no semicolon or backtick
followed by its terminating semicolon, a newline, and the closing fence — then
`clean_sql_query` returns exactly the fenced SELECT statement with whitespace
runs collapsed; in particular `"```sql\nSELECT * FROM S_RBR;\n```"` yields
`"SELECT * FROM S_RBR;"` (see the witness). -/
theorem C8_amended_fenced_extraction (t body : List Char) (ht : t ∈ fenceTags)
    (hsel : ciHead selectChars body = true)
    (hsemi : ∀ c ∈ body, c ≠ ';')
    (htick : ∀ c ∈ body, c ≠ tick) :
    clean_sql_query ⟨fenceTicks ++ (t ++ ('\n' :: ((body ++ [';']) ++ ('\n' :: fenceTicks))))⟩
      = ⟨collapseWs (body ++ [';'])⟩ := by
  have hmem := ht
  simp only [fenceTags, List.mem_cons, List.not_mem_nil, or_false] at hmem
  rcases hmem with rfl | rfl | rfl | rfl | rfl | rfl
  · refine clean_fence_plain _ body hsel hsemi htick ?_
    have p1 : (['s', 'q', 'l'] : List Char).isPrefixOf
        ((fenceTicks ++ (['s', 'q', 'l'] ++
          ('\n' :: ((body ++ [';']) ++ ('\n' :: fenceTicks))))).drop 3) = true := by
      simp [fenceTicks, List.isPrefixOf]
    have p2 : hasTicks (((fenceTicks ++ (['s', 'q', 'l'] ++
        ('\n' :: ((body ++ [';']) ++ ('\n' :: fenceTicks))))).drop 3).drop
          (['s', 'q', 'l'] : List Char).length) = true :=
      hasTicks_tail ('\n' :: (body ++ [';']))
    unfold fenceTags
    rw [pickTag_cons_pos _ p1 p2]
    rfl
  · refine clean_fence_plain _ body hsel hsemi htick ?_
    have n1 : (['s', 'q', 'l'] : List Char).isPrefixOf
        ((fenceTicks ++ (['S', 'Q', 'L'] ++
          ('\n' :: ((body ++ [';']) ++ ('\n' :: fenceTicks))))).drop 3) = false := by
      simp [fenceTicks, List.isPrefixOf]
    have p1 : (['S', 'Q', 'L'] : List Char).isPrefixOf
        ((fenceTicks ++ (['S', 'Q', 'L'] ++
          ('\n' :: ((body ++ [';']) ++ ('\n' :: fenceTicks))))).drop 3) = true := by
      simp [fenceTicks, List.isPrefixOf]
    have p2 : hasTicks (((fenceTicks ++ (['S', 'Q', 'L'] ++
        ('\n' :: ((body ++ [';']) ++ ('\n' :: fenceTicks))))).drop 3).drop
          (['S', 'Q', 'L'] : List Char).length) = true :=
      hasTicks_tail ('\n' :: (body ++ [';']))
    unfold fenceTags
    rw [pickTag_cons_neg _ n1, pickTag_cons_pos _ p1 p2]
    rfl
  · exact clean_fence_query body hsel hsemi htick
  · refine clean_fence_plain _ body hsel hsemi htick ?_
    have n1 : (['s', 'q', 'l'] : List Char).isPrefixOf
        ((fenceTicks ++ (['m', 'y', 's', 'q', 'l'] ++
          ('\n' :: ((body ++ [';']) ++ ('\n' :: fenceTicks))))).drop 3) = false := by
      simp [fenceTicks, List.isPrefixOf]
    have n2 : (['S', 'Q', 'L'] : List Char).isPrefixOf
        ((fenceTicks ++ (['m', 'y', 's', 'q', 'l'] ++
          ('\n' :: ((body ++ [';']) ++ ('\n' :: fenceTicks))))).drop 3) = false := by
      simp [fenceTicks, List.isPrefixOf]
    have n3 : (['S', 'Q', 'L', 'Q', 'u', 'e', 'r', 'y'] : List Char).isPrefixOf
        ((fenceTicks ++ (['m', 'y', 's', 'q', 'l'] ++
          ('\n' :: ((body ++ [';']) ++ ('\n' :: fenceTicks))))).drop 3) = false := by
      simp [fenceTicks, List.isPrefixOf]
    have p1 : (['m', 'y', 's', 'q', 'l'] : List Char).isPrefixOf
        ((fenceTicks ++ (['m', 'y', 's', 'q', 'l'] ++
          ('\n' :: ((body ++ [';']) ++ ('\n' :: fenceTicks))))).drop 3) = true := by
      simp [fenceTicks, List.isPrefixOf]
    have p2 : hasTicks (((fenceTicks ++ (['m', 'y', 's', 'q', 'l'] ++
        ('\n' :: ((body ++ [';']) ++ ('\n' :: fenceTicks))))).drop 3).drop
          (['m', 'y', 's', 'q', 'l'] : List Char).length) = true :=
      hasTicks_tail ('\n' :: (body ++ [';']))
    unfold fenceTags
    rw [pickTag_cons_neg _ n1, pickTag_cons_neg _ n2, pickTag_cons_neg _ n3,
      pickTag_cons_pos _ p1 p2]
    rfl
  · refine clean_fence_plain _ body hsel hsemi htick ?_
    have n1 : (['s', 'q', 'l'] : List Char).isPrefixOf
        ((fenceTicks ++ (['p', 'o', 's', 't', 'g', 'r', 'e', 's', 'q', 'l'] ++
          ('\n' :: ((body ++ [';']) ++ ('\n' :: fenceTicks))))).drop 3) = false := by
      simp [fenceTicks, List.isPrefixOf]
    have n2 : (['S', 'Q', 'L'] : List Char).isPrefixOf
        ((fenceTicks ++ (['p', 'o', 's', 't', 'g', 'r', 'e', 's', 'q', 'l'] ++
          ('\n' :: ((body ++ [';']) ++ ('\n' :: fenceTicks))))).drop 3) = false := by
      simp [fenceTicks, List.isPrefixOf]
    have n3 : (['S', 'Q', 'L', 'Q', 'u', 'e', 'r', 'y'] : List Char).isPrefixOf
        ((fenceTicks ++ (['p', 'o', 's', 't', 'g', 'r', 'e', 's', 'q', 'l'] ++
          ('\n' :: ((body ++ [';']) ++ ('\n' :: fenceTicks))))).drop 3) = false := by
      simp [fenceTicks, List.isPrefixOf]
    have n4 : (['m', 'y', 's', 'q', 'l'] : List Char).isPrefixOf
        ((fenceTicks ++ (['p', 'o', 's', 't', 'g', 'r', 'e', 's', 'q', 'l'] ++
          ('\n' :: ((body ++ [';']) ++ ('\n' :: fenceTicks))))).drop 3) = false := by
      simp [fenceTicks, List.isPrefixOf]
    have p1 : (['p', 'o', 's', 't', 'g', 'r', 'e', 's', 'q', 'l'] : List Char).isPrefixOf
        ((fenceTicks ++ (['p', 'o', 's', 't', 'g', 'r', 'e', 's', 'q', 'l'] ++
          ('\n' :: ((body ++ [';']) ++ ('\n' :: fenceTicks))))).drop 3) = true := by
      simp [fenceTicks, List.isPrefixOf]
    have p2 : hasTicks (((fenceTicks ++ (['p', 'o', 's', 't', 'g', 'r', 'e', 's', 'q', 'l'] ++
        ('\n' :: ((body ++ [';']) ++ ('\n' :: fenceTicks))))).drop 3).drop
          (['p', 'o', 's', 't', 'g', 'r', 'e', 's', 'q', 'l'] : List Char).length) = true :=
      hasTicks_tail ('\n' :: (body ++ [';']))
    unfold fenceTags
    rw [pickTag_cons_neg _ n1, pickTag_cons_neg _ n2, pickTag_cons_neg _ n3,
      pickTag_cons_neg _ n4, pickTag_cons_pos _ p1 p2]
    rfl
  · refine clean_fence_plain _ body hsel hsemi htick ?_
    obtain ⟨b0, b1, rest, hb, hb0, hb1⟩ := ciHead_sel_two body hsel
    have n1 : (['s', 'q', 'l'] : List Char).isPrefixOf
        ((fenceTicks ++ ([] ++
          ('\n' :: ((body ++ [';']) ++ ('\n' :: fenceTicks))))).drop 3) = false := by
      simp [fenceTicks, List.isPrefixOf]
    have n2 : (['S', 'Q', 'L'] : List Char).isPrefixOf
        ((fenceTicks ++ ([] ++
          ('\n' :: ((body ++ [';']) ++ ('\n' :: fenceTicks))))).drop 3) = false := by
      simp [fenceTicks, List.isPrefixOf]
    have n3 : (['S', 'Q', 'L', 'Q', 'u', 'e', 'r', 'y'] : List Char).isPrefixOf
        ((fenceTicks ++ ([] ++
          ('\n' :: ((body ++ [';']) ++ ('\n' :: fenceTicks))))).drop 3) = false := by
      simp [fenceTicks, List.isPrefixOf]
    have n4 : (['m', 'y', 's', 'q', 'l'] : List Char).isPrefixOf
        ((fenceTicks ++ ([] ++
          ('\n' :: ((body ++ [';']) ++ ('\n' :: fenceTicks))))).drop 3) = false := by
      simp [fenceTicks, List.isPrefixOf]
    have n5 : (['p', 'o', 's', 't', 'g', 'r', 'e', 's', 'q', 'l'] : List Char).isPrefixOf
        ((fenceTicks ++ ([] ++
          ('\n' :: ((body ++ [';']) ++ ('\n' :: fenceTicks))))).drop 3) = false := by
      simp [fenceTicks, List.isPrefixOf]
    have p1 : ([] : List Char).isPrefixOf
        ((fenceTicks ++ ([] ++
          ('\n' :: ((body ++ [';']) ++ ('\n' :: fenceTicks))))).drop 3) = true := rfl
    have p2 : hasTicks (((fenceTicks ++ ([] ++
        ('\n' :: ((body ++ [';']) ++ ('\n' :: fenceTicks))))).drop 3).drop
          ([] : List Char).length) = true :=
      hasTicks_tail ('\n' :: (body ++ [';']))
    unfold fenceTags
    rw [pickTag_cons_neg _ n1, pickTag_cons_neg _ n2, pickTag_cons_neg _ n3,
      pickTag_cons_neg _ n4, pickTag_cons_neg _ n5, pickTag_cons_pos _ p1 p2]
    rfl

/-- C8 witness: the amended theorem instantiated on the spec's own example,
`"```sql\nSELECT * FROM S_RBR;\n```"`, which cleans to `"SELECT * FROM S_RBR;"`. -/
theorem C8_witness :
    clean_sql_query "```sql\nSELECT * FROM S_RBR;\n```" = "SELECT * FROM S_RBR;" := by
  have h := C8_amended_fenced_extraction (['s', 'q', 'l']) (String.data "SELECT * FROM S_RBR")
    (by decide) (by decide) (by decide) (by decide)
  have e1 : (⟨fenceTicks ++ (['s', 'q', 'l'] ++
      ('\n' :: ((String.data "SELECT * FROM S_RBR" ++ [';']) ++ ('\n' :: fenceTicks))))⟩ : String)
      = "```sql\nSELECT * FROM S_RBR;\n```" := by decide
  have e2 : (⟨collapseWs (String.data "SELECT * FROM S_RBR" ++ [';'])⟩ : String)
      = "SELECT * FROM S_RBR;" := by decide
  rw [e1, e2] at h
  exact h

/-- C2 counterexample: a concrete run in which the two generation invocations of
the parallel assign step return different raw texts, `"SELECT a;"` and
`"SELECT b;"` — the generation chain is invoked twice, not once, and the
reported query is the extraction of the second response, which differs from the
extraction of the first. -/
theorem C2_counterexample :
    (KabaddiSystem.answer
        ⟨Except.ok "SELECT a;", Except.ok "SELECT b;",
          fun _ => Except.ok "r", fun _ _ _ => Except.ok "ans"⟩ "ti" "q" "now").2.genCalls ≠ 1 ∧
    (KabaddiSystem.answer
        ⟨Except.ok "SELECT a;", Except.ok "SELECT b;",
          fun _ => Except.ok "r", fun _ _ _ => Except.ok "ans"⟩ "ti" "q" "now").2.genCalls = 2 ∧
    (KabaddiSystem.answer
        ⟨Except.ok "SELECT a;", Except.ok "SELECT b;",
          fun _ => Except.ok "r", fun _ _ _ => Except.ok "ans"⟩ "ti" "q" "now").1.data.query
      = clean_sql_query "SELECT b;" ∧
    clean_sql_query "SELECT b;" ≠ clean_sql_query "SELECT a;" := by
  refine ⟨by decide, rfl, rfl, by decide⟩

/-- C2 (amended): the query-generation chain is invoked twice per run on the
same input; on every successful run the query reported in the envelope, and the
SQL text passed to the executor, is `clean_sql_query` applied to the second
invocation's raw response — which coincides with the original claim exactly
when the two responses are equal (a deterministic model). -/
theorem C2_amended_double_generation (env : Env) (ti q now s : String)
    (h2 : env.gen2 = Except.ok s)
    (hs : (KabaddiSystem.answer env ti q now).1.status = "success") :
    (KabaddiSystem.answer env ti q now).2.genCalls = 2 ∧
    (KabaddiSystem.answer env ti q now).1.data.query = clean_sql_query s ∧
    (KabaddiSystem.answer env ti q now).2.execArg = some (clean_sql_query s) := by
  cases hg1 : env.gen1 with
  | error e =>
    simp [KabaddiSystem.answer, hg1, errorResponse] at hs
  | ok r1 =>
    cases hx : env.exec (clean_sql_query s) with
    | error e =>
      simp [KabaddiSystem.answer, hg1, h2, hx, errorResponse] at hs
    | ok res =>
      by_cases hemp : ((trimWs res.data).isEmpty = true)
      · simp [KabaddiSystem.answer, hg1, h2, hx, hemp, successResponse]
      · have hemp' : (trimWs res.data).isEmpty = false := by
          rwa [Bool.not_eq_true] at hemp
        cases hr : env.rephrase q (clean_sql_query s) res with
        | error e =>
          simp [KabaddiSystem.answer, hg1, h2, hx, hemp', hr, errorResponse] at hs
        | ok a =>
          simp [KabaddiSystem.answer, hg1, h2, hx, hemp', hr, successResponse]

/-- C2 witness: the amended theorem instantiated on a concrete successful run. -/
theorem C2_witness :
    (KabaddiSystem.answer
        ⟨Except.ok "SELECT a;", Except.ok "SELECT b;",
          fun _ => Except.ok "r", fun _ _ _ => Except.ok "ans"⟩ "ti" "q" "now").2.genCalls = 2 ∧
    (KabaddiSystem.answer
        ⟨Except.ok "SELECT a;", Except.ok "SELECT b;",
          fun _ => Except.ok "r", fun _ _ _ => Except.ok "ans"⟩ "ti" "q" "now").1.data.query
      = clean_sql_query "SELECT b;" ∧
    (KabaddiSystem.answer
        ⟨Except.ok "SELECT a;", Except.ok "SELECT b;",
          fun _ => Except.ok "r", fun _ _ _ => Except.ok "ans"⟩ "ti" "q" "now").2.execArg
      = some (clean_sql_query "SELECT b;") :=
  C2_amended_double_generation
    ⟨Except.ok "SELECT a;", Except.ok "SELECT b;",
      fun _ => Except.ok "r", fun _ _ _ => Except.ok "ans"⟩ "ti" "q" "now" "SELECT b;"
    rfl (by decide)

/-- C4: for every request in which some stage of generation, execution or
rephrasing raises, the pipeline returns the error envelope: status `"error"`,
empty answer, empty query, empty raw_results, and tokens_used equal to the
token count of the input prompt computed before the failing stage. -/
theorem C4_error_envelope (env : Env) (ti q now : String)
    (h : stageFails env q = true) :
    (KabaddiSystem.answer env ti q now).1
      = ⟨"error", ⟨"", "", tokenCount (SYSTEM_PROMPT_TEMPLATE q ti "5"), []⟩, now⟩ := by
  cases hg1 : env.gen1 with
  | error e => simp [KabaddiSystem.answer, hg1, errorResponse]
  | ok r1 =>
    cases hg2 : env.gen2 with
    | error e => simp [KabaddiSystem.answer, hg1, hg2, errorResponse]
    | ok r2 =>
      simp only [stageFails, hg1, hg2] at h
      cases hx : env.exec (clean_sql_query r2) with
      | error e => simp [KabaddiSystem.answer, hg1, hg2, hx, errorResponse]
      | ok res =>
        simp only [hx] at h
        by_cases hemp : ((trimWs res.data).isEmpty = true)
        · rw [if_pos hemp] at h
          exact absurd h (by decide)
        · have hemp' : (trimWs res.data).isEmpty = false := by
            rwa [Bool.not_eq_true] at hemp
          rw [if_neg hemp] at h
          cases hr : env.rephrase q (clean_sql_query r2) res with
          | error e =>
            simp [KabaddiSystem.answer, hg1, hg2, hx, hemp', hr, errorResponse]
          | ok a =>
            rw [hr] at h
            simp at h

/-- C4 witness: the error envelope produced by a run whose generation stage
raises. -/
theorem C4_witness :
    (KabaddiSystem.answer
        ⟨Except.error "boom", Except.ok "x",
          fun _ => Except.ok "", fun _ _ _ => Except.ok ""⟩ "t" "q" "n").1
      = ⟨"error", ⟨"", "", tokenCount (SYSTEM_PROMPT_TEMPLATE "q" "t" "5"), []⟩, "n"⟩ :=
  C4_error_envelope
    ⟨Except.error "boom", Except.ok "x", fun _ => Except.ok "", fun _ _ _ => Except.ok ""⟩
    "t" "q" "n" (by decide)

/-- C5: for every request in which the executor returns a result that is empty
after trimming, the answer is exactly `"No data available."` and the rephraser
(the second language-model call) is never invoked. -/
theorem C5_empty_result_short_circuit (env : Env) (ti q now r1 r2 res : String)
    (h1 : env.gen1 = Except.ok r1) (h2 : env.gen2 = Except.ok r2)
    (hx : env.exec (clean_sql_query r2) = Except.ok res)
    (he : (trimWs res.data).isEmpty = true) :
    (KabaddiSystem.answer env ti q now).1.data.answer = "No data available." ∧
    (KabaddiSystem.answer env ti q now).2.rephraseCalls = 0 := by
  simp [KabaddiSystem.answer, h1, h2, hx, he, successResponse]

/-- C5 witness: a concrete run whose executor returns whitespace only; the
rephraser collaborator is an error, so invoking it would have failed the run. -/
theorem C5_witness :
    (KabaddiSystem.answer
        ⟨Except.ok "SELECT a;", Except.ok "SELECT a;",
          fun _ => Except.ok "  ", fun _ _ _ => Except.error "not called"⟩
        "t" "q" "n").1.data.answer = "No data available." ∧
    (KabaddiSystem.answer
        ⟨Except.ok "SELECT a;", Except.ok "SELECT a;",
          fun _ => Except.ok "  ", fun _ _ _ => Except.error "not called"⟩
        "t" "q" "n").2.rephraseCalls = 0 :=
  C5_empty_result_short_circuit
    ⟨Except.ok "SELECT a;", Except.ok "SELECT a;",
      fun _ => Except.ok "  ", fun _ _ _ => Except.error "not called"⟩
    "t" "q" "n" "SELECT a;" "SELECT a;" "  " rfl rfl rfl (by decide)

/-- C6: for every successful request with a non-empty execution result, the
tokens_used of the success envelope equals the token count of the generation
input prompt plus the token count of the final answer text. -/
theorem C6_token_accounting (env : Env) (ti q now r1 r2 res ans : String)
    (h1 : env.gen1 = Except.ok r1) (h2 : env.gen2 = Except.ok r2)
    (hx : env.exec (clean_sql_query r2) = Except.ok res)
    (hne : (trimWs res.data).isEmpty = false)
    (hr : env.rephrase q (clean_sql_query r2) res = Except.ok ans) :
    (KabaddiSystem.answer env ti q now).1.status = "success" ∧
    (KabaddiSystem.answer env ti q now).1.data.answer = ans ∧
    (KabaddiSystem.answer env ti q now).1.data.tokens_used
      = tokenCount (SYSTEM_PROMPT_TEMPLATE q ti "5") + tokenCount ans := by
  simp [KabaddiSystem.answer, h1, h2, hx, hne, hr, successResponse]

/-- C6 witness: the token sum on a concrete successful run. -/
theorem C6_witness :
    (KabaddiSystem.answer
        ⟨Except.ok "SELECT a;", Except.ok "SELECT a;",
          fun _ => Except.ok "r", fun _ _ _ => Except.ok "the answer"⟩
        "t" "q" "n").1.status = "success" ∧
    (KabaddiSystem.answer
        ⟨Except.ok "SELECT a;", Except.ok "SELECT a;",
          fun _ => Except.ok "r", fun _ _ _ => Except.ok "the answer"⟩
        "t" "q" "n").1.data.answer = "the answer" ∧
    (KabaddiSystem.answer
        ⟨Except.ok "SELECT a;", Except.ok "SELECT a;",
          fun _ => Except.ok "r", fun _ _ _ => Except.ok "the answer"⟩
        "t" "q" "n").1.data.tokens_used
      = tokenCount (SYSTEM_PROMPT_TEMPLATE "q" "t" "5") + tokenCount "the answer" :=
  C6_token_accounting
    ⟨Except.ok "SELECT a;", Except.ok "SELECT a;",
      fun _ => Except.ok "r", fun _ _ _ => Except.ok "the answer"⟩
    "t" "q" "n" "SELECT a;" "SELECT a;" "r" "the answer" rfl rfl rfl (by decide) rfl

/-- C7: on every successful request, raw_results is exactly the list of URL
entries extracted from the final answer by the scan for absolute http/https
links terminated at whitespace or a pipe character, in order of occurrence; and
on the answer `"See https://example.com/a|other text"` the scan extracts exactly
`"https://example.com/a"` (the pipe terminates the match). -/
theorem C7_url_extraction :
    (∀ (env : Env) (ti q now : String),
      (KabaddiSystem.answer env ti q now).1.status = "success" →
      (KabaddiSystem.answer env ti q now).1.data.raw_results
        = urlDicts ((KabaddiSystem.answer env ti q now).1.data.answer)) ∧
    findUrls (String.data "See https://example.com/a|other text")
      = [String.data "https://example.com/a"] := by
  constructor
  · intro env ti q now hs
    cases hg1 : env.gen1 with
    | error e => simp [KabaddiSystem.answer, hg1, errorResponse] at hs
    | ok r1 =>
      cases hg2 : env.gen2 with
      | error e => simp [KabaddiSystem.answer, hg1, hg2, errorResponse] at hs
      | ok r2 =>
        cases hx : env.exec (clean_sql_query r2) with
        | error e => simp [KabaddiSystem.answer, hg1, hg2, hx, errorResponse] at hs
        | ok res =>
          by_cases hemp : ((trimWs res.data).isEmpty = true)
          · simp [KabaddiSystem.answer, hg1, hg2, hx, hemp, successResponse]
          · have hemp' : (trimWs res.data).isEmpty = false := by
              rwa [Bool.not_eq_true] at hemp
            cases hr : env.rephrase q (clean_sql_query r2) res with
            | error e =>
              simp [KabaddiSystem.answer, hg1, hg2, hx, hemp', hr, errorResponse] at hs
            | ok a =>
              simp [KabaddiSystem.answer, hg1, hg2, hx, hemp', hr, successResponse]
  · decide

/-- C7 witness: a concrete successful run whose answer contains the spec's
example URL followed by a pipe character. -/
theorem C7_witness :
    (KabaddiSystem.answer
        ⟨Except.ok "SELECT a;", Except.ok "SELECT a;", fun _ => Except.ok "r",
          fun _ _ _ => Except.ok "See https://example.com/a|other text"⟩
        "t" "q" "n").1.data.raw_results
      = urlDicts ((KabaddiSystem.answer
        ⟨Except.ok "SELECT a;", Except.ok "SELECT a;", fun _ => Except.ok "r",
          fun _ _ _ => Except.ok "See https://example.com/a|other text"⟩
        "t" "q" "n").1.data.answer) :=
  C7_url_extraction.1
    ⟨Except.ok "SELECT a;", Except.ok "SELECT a;", fun _ => Except.ok "r",
      fun _ _ _ => Except.ok "See https://example.com/a|other text"⟩
    "t" "q" "n" (by decide)

/-- C9: the token count of the empty string is zero, and the token count is
monotonically non-decreasing under concatenation of a non-empty text (stated
over the spec-modelled `tokenCount`). -/
theorem C9_token_count_props :
    tokenCount "" = 0 ∧
    ∀ t s : String, s ≠ "" → tokenCount t ≤ tokenCount (t ++ s) := by
  refine ⟨rfl, ?_⟩
  intro t s _
  show t.length ≤ (t ++ s).length
  rw [String.length_append]
  exact Nat.le_add_right _ _

/-- C9 witness: the monotonicity instantiated on a concrete non-empty suffix. -/
theorem C9_witness :
    tokenCount "" = 0 ∧ tokenCount "ab" ≤ tokenCount ("ab" ++ "c") :=
  ⟨C9_token_count_props.1, C9_token_count_props.2 "ab" "c" (by decide)⟩
